import Mathlib

/-!
Verification development for the Wine tool `tools/make_xftmpl.c`, the text-to-binary
encoder for X template files.  The C program is shallowly embedded: the input
stream is a `List Nat` of bytes (0..255), the growable output buffer is an
explicit structure tracking stored bytes and allocated capacity, machine words
are `Nat`/`Int` reduced modulo `2^32` (or `2^16`, `2^8`) where the C code
truncates, and every fatal `exit(1)` path is an `Except` error.  The libc
routines the encoder relies on (`sscanf` with the fixed GUID format, `%d`,
`%f`, `strtok`, `strcasecmp`/`bsearch`) are modelled at the byte level with
C99 semantics for exactly the conversions the source uses.
-/

set_option maxRecDepth 100000
set_option maxHeartbeats 1600000

namespace MakeXftmpl

/-- Input and output bytes are plain naturals (the C code works on
`char`/`BYTE`); byte lists are `List Nat`. -/
def str (s : String) : List Nat := s.toList.map Char.toNat

/-! ### C character classification (C locale, ASCII) -/

def isdigit (c : Nat) : Bool := decide (48 ≤ c ∧ c ≤ 57)

def isalpha (c : Nat) : Bool := decide ((65 ≤ c ∧ c ≤ 90) ∨ (97 ≤ c ∧ c ≤ 122))

def isalnum (c : Nat) : Bool := isdigit c || isalpha c

/-- Model of `isspace` in the C locale: space, tab, newline, vertical tab, form feed, CR. -/
def isspaceC (c : Nat) : Bool := decide (c = 32 ∨ (9 ≤ c ∧ c ≤ 13))

/-- Model of `tolower` in the C locale. -/
def tolower (c : Nat) : Nat := if 65 ≤ c ∧ c ≤ 90 then c + 32 else c

/-- Value of a hexadecimal digit byte, `none` for non-hex bytes. -/
def hexVal (c : Nat) : Option Nat :=
  if 48 ≤ c ∧ c ≤ 57 then some (c - 48)
  else if 65 ≤ c ∧ c ≤ 70 then some (c - 55)
  else if 97 ≤ c ∧ c ≤ 102 then some (c - 87)
  else none

def hex (c : Nat) : Bool := (hexVal c).isSome

/-! ### Token codes (`#define TOKEN_*` in the source) -/

def TOKEN_NAME : Nat := 1
def TOKEN_STRING : Nat := 2
def TOKEN_INTEGER : Nat := 3
def TOKEN_GUID : Nat := 5
def TOKEN_OBRACE : Nat := 10
def TOKEN_CBRACE : Nat := 11
def TOKEN_OPAREN : Nat := 12
def TOKEN_CPAREN : Nat := 13
def TOKEN_OBRACKET : Nat := 14
def TOKEN_CBRACKET : Nat := 15
def TOKEN_DOT : Nat := 18
def TOKEN_COMMA : Nat := 19
def TOKEN_SEMICOLON : Nat := 20
def TOKEN_TEMPLATE : Nat := 31
def TOKEN_WORD : Nat := 40
def TOKEN_DWORD : Nat := 41
def TOKEN_FLOAT : Nat := 42
def TOKEN_DOUBLE : Nat := 43
def TOKEN_CHAR : Nat := 44
def TOKEN_UCHAR : Nat := 45
def TOKEN_SWORD : Nat := 46
def TOKEN_SDWORD : Nat := 47
def TOKEN_VOID : Nat := 48
def TOKEN_LPSTR : Nat := 49
def TOKEN_UNICODE : Nat := 50
def TOKEN_CSTRING : Nat := 51
def TOKEN_ARRAY : Nat := 52

/-- Little-endian bytes of a 16-bit value (`write_word`). -/
def wordBytes (v : Nat) : List Nat := [v % 256, v / 256 % 256]

/-- Little-endian bytes of a 32-bit value (`write_dword`). -/
def dwordBytes (v : Nat) : List Nat :=
  [v % 256, v / 256 % 256, v / 65536 % 256, v / 16777216 % 256]

/-- Wrap-around (32-bit signed-to-unsigned) image of a C `int`/`DWORD` store. -/
def toU32 (i : Int) : Nat := (i % (4294967296 : Int)).toNat

/-! ### Output buffer (`output_data` / `output_pos` / `output_size`)

`write_bytes` grows the allocation with `output_size = max(output_size * 2, size)`
when `output_pos + size > output_size`.  The model tracks the stored bytes, the
allocated capacity, and a sticky `oob` flag recording whether some `memcpy`
extended past the allocated capacity (which is heap corruption in the C code).
All size arithmetic is `UINT`, i.e. modulo `2^32`. -/

def UINT_MOD : Nat := 4294967296

structure OutBuf where
  data : List Nat
  cap : Nat
  oob : Bool
deriving Repr, DecidableEq

def emptyBuf : OutBuf := ⟨[], 0, false⟩

def write_bytes (b : OutBuf) (bs : List Nat) : OutBuf :=
  let n := bs.length % UINT_MOD
  let pos := b.data.length % UINT_MOD
  let needed := (pos + n) % UINT_MOD
  let cap2 := if b.cap < needed then max (b.cap * 2 % UINT_MOD) n else b.cap
  ⟨b.data ++ bs, cap2, b.oob || decide (cap2 < needed)⟩

/-- Apply a sequence of `write_bytes` calls in order. -/
def applyWrites (b : OutBuf) (ws : List (List Nat)) : OutBuf := ws.foldl write_bytes b

/-! ### Keyword table (`reserved_words`, `compare_names`, `parse_keyword`)

The C code bsearches the statically sorted table with `strcasecmp`.  Since the
table is strictly sorted under that comparator (checked below), the bsearch
returns an entry iff some entry compares case-insensitively equal, which is the
`find?` below. -/

def strcaseeq (a b : List Nat) : Bool := a.map tolower == b.map tolower

def reserved_words : List (List Nat × Nat) :=
  [(str ("ARRAY"), TOKEN_ARRAY),
   (str ("CHAR"), TOKEN_CHAR),
   (str ("CSTRING"), TOKEN_CSTRING),
   (str ("DOUBLE"), TOKEN_DOUBLE),
   (str ("DWORD"), TOKEN_DWORD),
   (str ("FLOAT"), TOKEN_FLOAT),
   (str ("SDWORD"), TOKEN_SDWORD),
   (str ("STRING"), TOKEN_LPSTR),
   (str ("SWORD"), TOKEN_SWORD),
   (str ("TEMPLATE"), TOKEN_TEMPLATE),
   (str ("UCHAR"), TOKEN_UCHAR),
   (str ("UNICODE"), TOKEN_UNICODE),
   (str ("VOID"), TOKEN_VOID),
   (str ("WORD"), TOKEN_WORD)]

def lookupKeyword (name : List Nat) : Option Nat :=
  (reserved_words.find? fun e => strcaseeq e.1 name).map fun e => e.2

/-- Model of `parse_keyword`: the token-code write emitted for a reserved word, if any. -/
def parse_keyword (name : List Nat) : Option (List Nat) :=
  (lookupKeyword name).map fun code => wordBytes code

/-! ### Fatal lexical errors (`fatal_error` calls in the token encoder) -/

inductive Fatal where
  | invalidComment
  | lineTooLong
  | truncatedGuid
  | invalidGuid
  | unterminatedString
  | invalidFloat
  | invalidInteger
  | invalidChar (c : Nat)
deriving Repr, DecidableEq

/-! ### Scanning loops of the encoder

Each loop in the C source reads bytes one at a time into a 512-byte buffer,
storing a byte only while `len + 1 < sizeof(buffer)` (i.e. at most 511 bytes
are kept; one slot is reserved for the NUL terminator). -/

/-- The string-literal and directive loops: consume bytes until `stop`;
returns the stored bytes and `some rest` past the `stop` byte, or `none` if
input ran out first (the C code then raises a fatal error). -/
def scanUntil (stop : Nat) : List Nat → Nat → (List Nat × Option (List Nat))
  | [], _ => ([], none)
  | c :: rest, len =>
    if c = stop then ([], some rest)
    else
      let out := scanUntil stop rest (if len + 1 < 512 then len + 1 else len)
      ((if len + 1 < 512 then c :: out.1 else out.1), out.2)

/-- A name character: `isalnum(c) || c == '_' || c == '-'`. -/
def nameChar (c : Nat) : Bool := isalnum c || c == 95 || c == 45

/-- The `parse_name` loop: consume name characters (with the vacuous
`len < sizeof(name)` guard of the source) and push the terminator back. -/
def nameScan : List Nat → Nat → (List Nat × List Nat)
  | [], _ => ([], [])
  | c :: rest, len =>
    if len < 512 && nameChar c then
      let out := nameScan rest (if len + 1 < 512 then len + 1 else len)
      ((if len + 1 < 512 then c :: out.1 else out.1), out.2)
    else ([], c :: rest)

/-- The `parse_number` loop: a `-` only as first stored byte, at most one `.`,
otherwise digits; the terminating byte is pushed back. -/
def numScan : List Nat → Nat → Bool → (List Nat × Bool × List Nat)
  | [], _, dot => ([], dot, [])
  | c :: rest, len, dot =>
    if (len == 0 && c == 45) || (!dot && c == 46) || isdigit c then
      let out := numScan rest (if len + 1 < 512 then len + 1 else len) (dot || c == 46)
      ((if len + 1 < 512 then c :: out.1 else out.1), out.2.1, out.2.2)
    else ([], dot, c :: rest)

/-! ### libc numeric conversions used by the encoder -/

/-- Value of a (non-empty) decimal digit string. -/
def digitsVal (ds : List Nat) : Nat := ds.foldl (fun a c => a * 10 + (c - 48)) 0

/-- Model of `sscanf(buffer, "%d", &value)`: skip spaces, optional sign, then decimal
digits; `none` is a matching failure (`ret == 0`, fatal in the caller).
The empty buffer (`ret == EOF`, an uninitialized-value path in C) cannot be
produced by `parse_number`; out-of-range values, undefined in C, are wrapped
at the 32-bit store. -/
def scanfD (s : List Nat) : Option Int :=
  let s1 := s.dropWhile isspaceC
  let p : Bool × List Nat :=
    match s1 with
    | 43 :: r => (false, r)
    | 45 :: r => (true, r)
    | _ => (false, s1)
  let ds := p.2.takeWhile isdigit
  if ds = [] then none
  else some ((if p.1 then (-1 : Int) else 1) * digitsVal ds)

/-! IEEE-754 binary32: `sscanf(buffer, "%f", &value)` is, in glibc, a correctly
rounded decimal-to-float conversion; the buffer built by `parse_number`
contains only an optional leading `-`, digits and at most one `.`, so only
plain fixed-point decimals have to be converted. -/

/-- Number of bits of `n` (0 for 0), via a fuel-bounded halving loop so that
the kernel can evaluate it. -/
def bitlenAux : Nat → Nat → Nat
  | 0, _ => 0
  | f + 1, n => if n = 0 then 0 else bitlenAux f (n / 2) + 1

def bitlen (n : Nat) : Nat := bitlenAux n n

/-- Round `p / q` (with `q > 0`) to the nearest integer, ties to even. -/
def divRNE (p q : Nat) : Nat :=
  let d := p / q
  let r := p % q
  if q < 2 * r then d + 1 else if 2 * r < q then d else if d % 2 = 0 then d else d + 1

/-- IEEE-754 binary32 bit pattern of `(-1)^sign * num / den` (`den > 0`),
round to nearest, ties to even, with subnormals and overflow to infinity. -/
def floatBits (sign : Bool) (num den : Nat) : Nat :=
  let sbit := if sign then 2147483648 else 0
  if num = 0 then sbit
  else
    let b := bitlen den
    let e : Int := (bitlen (num * 2 ^ b / den) : Int) - 1 - b
    if -126 ≤ e then
      let shift : Int := 23 - e
      let m := if 0 ≤ shift then divRNE (num * 2 ^ shift.toNat) den
               else divRNE num (den * 2 ^ (-shift).toNat)
      let m2 := if m = 16777216 then 8388608 else m
      let e2 := if m = 16777216 then e + 1 else e
      if 127 < e2 then sbit + 2139095040
      else sbit + (e2 + 127).toNat * 8388608 + (m2 - 8388608)
    else
      let m := divRNE (num * 2 ^ 149) den
      sbit + m

/-- Model of `sscanf(buffer, "%f", &value)` on the digits-and-dot buffers produced by
`parse_number`: returns the binary32 bit pattern, `none` on matching failure. -/
def scanfF (s : List Nat) : Option Nat :=
  let s1 := s.dropWhile isspaceC
  let p : Bool × List Nat :=
    match s1 with
    | 43 :: r => (false, r)
    | 45 :: r => (true, r)
    | _ => (false, s1)
  let ip := p.2.takeWhile isdigit
  let s2 := p.2.dropWhile isdigit
  let fp : List Nat :=
    match s2 with
    | 46 :: r => r.takeWhile isdigit
    | _ => []
  if ip = [] ∧ fp = [] then none
  else some (floatBits p.1 (digitsVal (ip ++ fp)) (10 ^ fp.length))

/-! ### scanf hexadecimal conversions for the GUID format

`parse_guid` scans its 38-byte buffer with
`"<%08X-%04X-%04X-%02X%02X-%02X%02X%02X%02X%02X%02X>"`.  A `%NX` conversion
skips whitespace, then reads the longest sequence of at most `N` bytes that is
a prefix of an optionally signed, optionally `0x`-prefixed hex numeral, and
fails unless that sequence is a complete numeral (C99 fscanf semantics).
A literal byte in the format matches exactly itself. -/

/-- Read at most `w` hex digits; returns (count, value, rest). -/
def takeHexDigits : Nat → List Nat → (Nat × Nat × List Nat)
  | 0, bs => (0, 0, bs)
  | _ + 1, [] => (0, 0, [])
  | w + 1, c :: rest =>
    match hexVal c with
    | none => (0, 0, c :: rest)
    | some v =>
      let out := takeHexDigits w rest
      (out.1 + 1, v * 16 ^ out.1 + out.2.1, out.2.2)

/-- The conversion body after the optional sign, width `w` remaining: a
`0x`/`0X` prefix (itself a prefix of a matching sequence, hence consumed) must
be followed by a hex digit within the width, else matching fails. -/
def scanfHexAfterSign (w : Nat) (bs : List Nat) : Option (Nat × List Nat) :=
  if decide (2 ≤ bs.length) && (bs.getD 0 0 == 48) &&
     ((bs.getD 1 0 == 120) || (bs.getD 1 0 == 88)) && decide (2 ≤ w) then
    if (takeHexDigits (w - 2) (bs.drop 2)).1 = 0 then none
    else some ((takeHexDigits (w - 2) (bs.drop 2)).2.1, (takeHexDigits (w - 2) (bs.drop 2)).2.2)
  else
    if (takeHexDigits w bs).1 = 0 then none
    else some ((takeHexDigits w bs).2.1, (takeHexDigits w bs).2.2)

/-- Full `%NX` conversion with field width `w`: value (signed) and rest. -/
def scanfHex (w : Nat) (bs : List Nat) : Option (Int × List Nat) :=
  if (bs.dropWhile isspaceC).getD 0 0 = 43 then
    (scanfHexAfterSign (w - 1) ((bs.dropWhile isspaceC).drop 1)).map fun t => ((t.1 : Int), t.2)
  else if (bs.dropWhile isspaceC).getD 0 0 = 45 then
    (scanfHexAfterSign (w - 1) ((bs.dropWhile isspaceC).drop 1)).map fun t => (-(t.1 : Int), t.2)
  else (scanfHexAfterSign w (bs.dropWhile isspaceC)).map fun t => ((t.1 : Int), t.2)

/-- A literal format byte. -/
def matchLit (c : Nat) : List Nat → Option (List Nat)
  | d :: rest => if d = c then some rest else none
  | [] => none

/-- One item of a scanf format: a literal byte or a width-limited `%NX`. -/
inductive FmtItem where
  | lit (c : Nat)
  | hexw (w : Nat)

/-- Run a scanf format over the buffer, collecting the values assigned by
the conversions in order; on a literal mismatch or a conversion failure the
scan stops and the values assigned so far are kept — this mirrors the return
value of `sscanf`, which counts assigned conversions only, so a directive
failing after the last conversion cannot lower the count. -/
def runFmt : List FmtItem → List Nat → (List Int × List Nat)
  | [], bs => ([], bs)
  | .lit c :: items, bs =>
    match matchLit c bs with
    | none => ([], bs)
    | some r => runFmt items r
  | .hexw w :: items, bs =>
    match scanfHex w bs with
    | none => ([], bs)
    | some (v, r) =>
      let out := runFmt items r
      (v :: out.1, out.2)

/-- The format `"<%08X-%04X-%04X-%02X%02X-%02X%02X%02X%02X%02X%02X>"`. -/
def guidFmt : List FmtItem :=
  [.lit 60, .hexw 8, .lit 45, .hexw 4, .lit 45, .hexw 4, .lit 45, .hexw 2, .hexw 2,
   .lit 45, .hexw 2, .hexw 2, .hexw 2, .hexw 2, .hexw 2, .hexw 2, .lit 62]

/-- The full GUID scan on the NUL-terminated buffer: the C code accepts iff
`ret == 11`, i.e. iff all eleven conversions were assigned.  Since every
conversion precedes the trailing `>` literal of the format, a mismatch of
that final literal cannot lower the count and is therefore not enforced.
On success, the result is the 16 bytes of the `GUID` structure as laid out
in memory (little-endian `DWORD`, two little-endian `WORD`s, eight bytes),
after the narrowing stores `Data2 = tab[0]`, `Data3 = tab[1]`,
`Data4[i] = tab[i+2]`. -/
def scanGuid (s : List Nat) : Option (List Nat) :=
  match runFmt guidFmt s with
  | ([d1, t0, t1, t2, t3, t4, t5, t6, t7, t8, t9], _) =>
    some (dwordBytes (toU32 d1) ++
      wordBytes (toU32 t0 % 65536) ++ wordBytes (toU32 t1 % 65536) ++
      [toU32 t2 % 256, toU32 t3 % 256, toU32 t4 % 256, toU32 t5 % 256,
       toU32 t6 % 256, toU32 t7 % 256, toU32 t8 % 256, toU32 t9 % 256])
  | _ => none

/-! ### The token parsers -/

/-- Model of `parse_guid`: after the leading `<`, exactly 37 more bytes are read
(`fatal_error "truncated GUID"` if unavailable), NUL-terminated, and scanned;
fewer than 11 conversions is `fatal_error "invalid GUID"`.  On success the
writes are the `TOKEN_GUID` word and the 16-byte GUID record. -/
def parse_guid (input : List Nat) : Except Fatal (List (List Nat) × List Nat) :=
  if input.length < 37 then .error .truncatedGuid
  else
    match scanGuid (60 :: (input.take 37).takeWhile fun c => c != 0) with
    | none => .error .invalidGuid
    | some g => .ok ([wordBytes TOKEN_GUID, g], input.drop 37)

/-- Model of `parse_name`: scan the name (at most 511 bytes stored), then either the
keyword token word alone, or `TOKEN_NAME`, a 32-bit length and the bytes. -/
def parse_name (input : List Nat) : List (List Nat) × List Nat :=
  let out := nameScan input 0
  match parse_keyword out.1 with
  | some w => ([w], out.2)
  | none => ([wordBytes TOKEN_NAME, dwordBytes out.1.length, out.1], out.2)

/-- Model of `parse_number`: scan the numeral; with a dot it is a float
(`TOKEN_FLOAT` + 4 bytes IEEE-754), otherwise an integer
(`TOKEN_INTEGER` + the 4-byte signed representation); scan failure is fatal. -/
def parse_number (input : List Nat) : Except Fatal (List (List Nat) × List Nat) :=
  let out := numScan input 0 false
  if out.2.1 then
    match scanfF out.1 with
    | none => .error .invalidFloat
    | some bits => .ok ([wordBytes TOKEN_FLOAT, dwordBytes bits], out.2.2)
  else
    match scanfD out.1 with
    | none => .error .invalidInteger
    | some v => .ok ([wordBytes TOKEN_INTEGER, dwordBytes (toU32 v)], out.2.2)

/-! ### Directive lines -/

/-- Encoder state: the configured C variable name and size-macro name
(`option_inc_var_name` / `option_inc_size_name`); a command-line flag
pre-populates them before encoding starts. -/
structure PState where
  varName : Option (List Nat)
  sizeName : Option (List Nat)
deriving Repr, DecidableEq

def isSep (c : Nat) : Bool := c == 32 || c == 9

/-- Model of `strtok(buffer, " \t")` tokenization: maximal non-separator runs. -/
def splitWordsAux : Nat → List Nat → List (List Nat)
  | 0, _ => []
  | _ + 1, [] => []
  | f + 1, c :: rest =>
    if isSep c then splitWordsAux f rest
    else (c :: rest.takeWhile fun x => !isSep x) ::
         splitWordsAux f (rest.dropWhile fun x => !isSep x)

def splitWords (s : List Nat) : List (List Nat) := splitWordsAux s.length s

/-- The `#pragma xftmpl name|size VALUE` recognition: a name or size value is
recorded only when none is recorded yet; everything else is ignored. -/
def applyPragma (ws : List (List Nat)) (st : PState) : PState :=
  match ws with
  | w0 :: w1 :: w2 :: rest =>
    if w0 = str ("pragma") ∧ w1 = str ("xftmpl") then
      if w2 = str ("name") then
        match rest, st.varName with
        | v :: _, none => PState.mk (some v) st.sizeName
        | _, _ => st
      else if w2 = str ("size") then
        match rest, st.sizeName with
        | v :: _, none => PState.mk st.varName (some v)
        | _, _ => st
      else st
    else st
  | _ => st

/-! ### `parse_token`: one step of the encoder -/

/-- The `case '/':` branch: a second `/` discards the line through its
newline (end of input without a newline returns FALSE, ending the encoder
loop normally); a single `/` is fatal. -/
def commentTok (rest : List Nat) (st : PState) :
    Except Fatal (Option (List (List Nat) × List Nat × PState)) :=
  match rest with
  | 47 :: r2 =>
    match r2.dropWhile (fun x => x != 10) with
    | [] => .ok none
    | _ :: r3 => .ok (some ([], r3, st))
  | _ => .error .invalidComment

/-- The `case '#':` branch: capture the line, tokenize it with `strtok`
(which stops at the first NUL), and apply the pragma rule. -/
def directiveTok (rest : List Nat) (st : PState) :
    Except Fatal (Option (List (List Nat) × List Nat × PState)) :=
  match (scanUntil 10 rest 0).2 with
  | none => .error .lineTooLong
  | some r2 =>
    .ok (some ([], r2,
      applyPragma (splitWords ((scanUntil 10 rest 0).1.takeWhile fun x => x != 0)) st))

/-- The `case '"':` branch: accumulate verbatim up to the closing quote. -/
def stringTok (rest : List Nat) (st : PState) :
    Except Fatal (Option (List (List Nat) × List Nat × PState)) :=
  match (scanUntil 34 rest 0).2 with
  | none => .error .unterminatedString
  | some r2 =>
    .ok (some ([wordBytes TOKEN_STRING, dwordBytes (scanUntil 34 rest 0).1.length,
      (scanUntil 34 rest 0).1], r2, st))

/-- One `parse_token` call: `ok none` is end of input at a token boundary
(the encoder loop stops), `ok (some (writes, rest, st))` is one consumed
token with its `write_bytes` calls, and `error` is a fatal lexical error. -/
def parse_token : List Nat → PState →
    Except Fatal (Option (List (List Nat) × List Nat × PState))
  | [], _ => .ok none
  | c :: rest, st =>
    if c = 10 ∨ c = 13 ∨ c = 32 ∨ c = 9 then .ok (some ([], rest, st))
    else if c = 123 then .ok (some ([wordBytes TOKEN_OBRACE], rest, st))
    else if c = 125 then .ok (some ([wordBytes TOKEN_CBRACE], rest, st))
    else if c = 91 then .ok (some ([wordBytes TOKEN_OBRACKET], rest, st))
    else if c = 93 then .ok (some ([wordBytes TOKEN_CBRACKET], rest, st))
    else if c = 40 then .ok (some ([wordBytes TOKEN_OPAREN], rest, st))
    else if c = 41 then .ok (some ([wordBytes TOKEN_CPAREN], rest, st))
    else if c = 44 then .ok (some ([wordBytes TOKEN_COMMA], rest, st))
    else if c = 59 then .ok (some ([wordBytes TOKEN_SEMICOLON], rest, st))
    else if c = 46 then .ok (some ([wordBytes TOKEN_DOT], rest, st))
    else if c = 47 then commentTok rest st
    else if c = 35 then directiveTok rest st
    else if c = 60 then (parse_guid rest).map fun p => some (p.1, p.2, st)
    else if c = 34 then stringTok rest st
    else if isdigit c || c = 45 then
      (parse_number (c :: rest)).map fun p => some (p.1, p.2, st)
    else if isalpha c || c = 95 then
      .ok (some ((parse_name (c :: rest)).1, (parse_name (c :: rest)).2, st))
    else .error (.invalidChar c)

/-! ### The encoder loop and the surrounding `main` logic -/

/-- The loop `while (parse_token(&parser));` with fuel; every successful `parse_token`
consumes at least one input byte, so fuel `input.length + 1` is exact. -/
def runTokens : Nat → List Nat → PState → OutBuf → Except Fatal (OutBuf × PState)
  | 0, _, st, b => .ok (b, st)
  | fuel + 1, input, st, b =>
    match parse_token input st with
    | .error e => .error e
    | .ok none => .ok (b, st)
    | .ok (some (ws, rest, st2)) => runTokens fuel rest st2 (applyWrites b ws)

inductive HeaderErr where
  | truncated
  | badMagic
  | badVersion
  | notText
  | badFloat
deriving Repr, DecidableEq

inductive EncErr where
  | header (h : HeaderErr)
  | lexical (e : Fatal)
deriving Repr, DecidableEq

/-- The canonical output header, written before any token:
`write_bytes(&parser, "xof 0302bin 0064", 16)`. -/
def canonicalHeader : List Nat := str ("xof 0302bin 0064")

/-- The `main` pipeline after option parsing: read and validate the 16-byte
input header field by field, write the canonical output header, then run the
encoder loop over the remaining bytes. -/
def encodeFile (input : List Nat) (st : PState) : Except EncErr (OutBuf × PState) :=
  if input.length < 16 then .error (.header .truncated)
  else if input.take 4 ≠ str ("xof ") then .error (.header .badMagic)
  else if (input.drop 4).take 4 ≠ str ("0302") ∧ (input.drop 4).take 4 ≠ str ("0303") then
    .error (.header .badVersion)
  else if (input.drop 8).take 4 ≠ str ("txt ") then .error (.header .notText)
  else if (input.drop 12).take 4 ≠ str ("0032") ∧ (input.drop 12).take 4 ≠ str ("0064") then
    .error (.header .badFloat)
  else
    match runTokens (input.length + 1) (input.drop 16) st
        (write_bytes emptyBuf canonicalHeader) with
    | .error e => .error (.lexical e)
    | .ok r => .ok r

/-- Token-level encoding of a byte stream (no file header), used to state
properties of the token encoder itself. -/
def lexAll (input : List Nat) : Except Fatal (List Nat) :=
  (runTokens (input.length + 1) input (PState.mk none none) emptyBuf).map fun r => r.1.data

/-! ### Sink writers -/

/-- Model of `write_raw_bytes`: the binary-mode sink emits the buffer byte for byte. -/
def write_raw_bytes (data : List Nat) : List Nat := data

/-- Model of `fprintf` with `"%02x"`: lowercase hex, at least two digits. -/
def printfHex02 (n : Nat) : List Nat :=
  let ds := (Nat.toDigits 16 n).map Char.toNat
  if ds.length < 2 then 48 :: ds else ds

/-- Model of `write_c_hex_bytes` starting at byte index `i`: every 12 bytes a newline
and one space, then for each byte a space, `0x`, the hex value, a comma. -/
def write_c_hex_bytes (i : Nat) (data : List Nat) : List Nat :=
  match data with
  | [] => []
  | b :: rest =>
    (if i % 12 = 0 then [10, 32] else []) ++ [32, 48, 120] ++ printfHex02 b ++ [44] ++
    write_c_hex_bytes (i + 1) rest

/-! ### The fixed GUID text pattern (spec side, for claim C1)

Modelled from the words of the spec: 32 hex digits in groups of 8-4-4-4-12 with
literal dashes between the groups and a closing `>` at the fixed offsets. -/

/-- Exactly `n` hex digits, then the rest. -/
def hexRun : Nat → List Nat → Option (List Nat)
  | 0, rest => some rest
  | _ + 1, [] => none
  | n + 1, c :: rest => if hex c then hexRun n rest else none

/-- The 37 bytes following `<` match
`XXXXXXXX-XXXX-XXXX-XXXX-XXXXXXXXXXXX>` exactly. -/
def guidFixedPattern (bs : List Nat) : Prop :=
  ((((((((((hexRun 8 bs).bind (matchLit 45)).bind (hexRun 4)).bind
    (matchLit 45)).bind (hexRun 4)).bind (matchLit 45)).bind (hexRun 4)).bind
    (matchLit 45)).bind (hexRun 12)).bind (matchLit 62)) = some []

instance (bs : List Nat) : Decidable (guidFixedPattern bs) := by
  unfold guidFixedPattern; infer_instance

/-! ### Hex-array decoder (spec side, for claim C8)

Modelled from the words of the spec: the byte values are recovered by decoding the
`0x..` hex literals of the rendered C array. -/

def hexListVal (ds : List Nat) : Nat := ds.foldl (fun a c => a * 16 + (hexVal c).getD 0) 0

theorem dropWhile_length_le (p : Nat → Bool) (l : List Nat) :
    (l.dropWhile p).length ≤ l.length := by
  induction l with
  | nil => simp
  | cons c rest ih =>
    by_cases h : p c = true
    · rw [List.dropWhile_cons, if_pos h]; exact Nat.le_succ_of_le ih
    · rw [List.dropWhile_cons, if_neg h]

def decodeHexBytes : List Nat → List Nat
  | [] => []
  | 48 :: 120 :: rest =>
    let ds := rest.takeWhile fun c => (hexVal c).isSome
    if ds = [] then decodeHexBytes rest
    else hexListVal ds :: decodeHexBytes (rest.dropWhile fun c => (hexVal c).isSome)
  | _ :: rest => decodeHexBytes rest
termination_by s => s.length
decreasing_by
  all_goals simp_wf
  all_goals first
    | omega
    | (have h9 := dropWhile_length_le (fun c => (hexVal c).isSome) rest; omega)

/-! ## Characterization of the scanning loops -/

theorem takeWhile_eq_self_of_all (p : Nat → Bool) (l : List Nat)
    (h : ∀ x ∈ l, p x = true) : l.takeWhile p = l := by
  induction l with
  | nil => rfl
  | cons c rest ih =>
    rw [List.takeWhile_cons, if_pos (h c (List.mem_cons_self c rest))]
    rw [ih fun x hx => h x (List.mem_cons_of_mem c hx)]

/-- The string/directive loop stores the first 511 bytes before the stop
byte (one buffer slot is reserved for the NUL terminator), consumes through
the stop byte, and reports end of input when the stop byte is missing. -/
theorem scanUntil_eq (stop : Nat) (input : List Nat) (len : Nat) (h : len ≤ 511) :
    scanUntil stop input len =
      ((input.takeWhile fun c => c != stop).take (511 - len),
       if stop ∈ input then some ((input.dropWhile fun c => c != stop).drop 1) else none) := by
  induction input generalizing len with
  | nil => simp [scanUntil]
  | cons c rest ih =>
    by_cases hc : c = stop
    · subst hc
      simp [scanUntil, List.takeWhile_cons, List.dropWhile_cons]
    · have hcs : ¬ stop = c := fun h2 => hc h2.symm
      rcases Nat.lt_or_ge len 511 with hlt | hge
      · have hstep : len + 1 < 512 := by omega
        have h1 : 511 - len = (511 - (len + 1)) + 1 := by omega
        simp only [scanUntil, if_neg hc, hstep, if_true, ih (len + 1) (by omega),
          List.takeWhile_cons, List.dropWhile_cons, bne_iff_ne, ne_eq, hc,
          not_false_iff, if_true, if_false, List.mem_cons, hcs, false_or, h1,
          List.take_succ_cons]
      · have hlen : len = 511 := by omega
        subst hlen
        simp only [scanUntil, if_neg hc, Nat.lt_irrefl, if_false,
          ih 511 (Nat.le_refl 511), List.takeWhile_cons, List.dropWhile_cons,
          bne_iff_ne, ne_eq, hc, not_false_iff, if_true, if_false, List.mem_cons,
          hcs, false_or, Nat.sub_self, List.take_zero]

/-- The `parse_name` loop stores the first 511 name characters and pushes
the terminating byte back. -/
theorem nameScan_eq (input : List Nat) (len : Nat) (h : len ≤ 511) :
    nameScan input len =
      ((input.takeWhile nameChar).take (511 - len), input.dropWhile nameChar) := by
  induction input generalizing len with
  | nil => simp [nameScan]
  | cons c rest ih =>
    have h512 : len < 512 := by omega
    by_cases hc : nameChar c = true
    · rcases Nat.lt_or_ge len 511 with hlt | hge
      · have hstep : len + 1 < 512 := by omega
        have h1 : 511 - len = (511 - (len + 1)) + 1 := by omega
        simp only [nameScan, h512, decide_True, hc, Bool.and_self, if_true,
          hstep, ih (len + 1) (by omega), List.takeWhile_cons,
          List.dropWhile_cons, h1, List.take_succ_cons]
      · have hlen : len = 511 := by omega
        subst hlen
        simp only [nameScan, h512, decide_True, hc, Bool.and_self, if_true,
          Nat.lt_irrefl, if_false, ih 511 (Nat.le_refl 511),
          List.takeWhile_cons, List.dropWhile_cons, Nat.sub_self,
          List.take_zero]
    · have hcf : nameChar c = false := by
        cases hn : nameChar c
        · rfl
        · exact absurd hn hc
      simp only [nameScan, h512, decide_True, hcf, Bool.and_false, if_false,
        List.takeWhile_cons, List.dropWhile_cons, Bool.false_eq_true, if_false,
        List.take_nil]

/-! ## String literals and directive lines -/

/-- Full characterization of a `"`-initiated token: the payload is the input
up to the first quote byte truncated to 511 bytes; a missing closing quote is
the fatal "unterminated string" error. -/
theorem parse_token_string_eq (bs : List Nat) (st : PState) :
    parse_token (34 :: bs) st =
      if 34 ∈ bs then
        .ok (some ([wordBytes TOKEN_STRING,
          dwordBytes ((bs.takeWhile fun c => c != 34).take 511).length,
          (bs.takeWhile fun c => c != 34).take 511],
          (bs.dropWhile fun c => c != 34).drop 1, st))
      else .error .unterminatedString := by
  have hstep : parse_token (34 :: bs) st =
      (match (scanUntil 34 bs 0).2 with
       | none => .error .unterminatedString
       | some r2 => .ok (some ([wordBytes TOKEN_STRING,
           dwordBytes (scanUntil 34 bs 0).1.length, (scanUntil 34 bs 0).1], r2, st))) := rfl
  rw [hstep, scanUntil_eq 34 bs 0 (by omega)]
  by_cases hm : (34 : Nat) ∈ bs
  · simp [hm]
  · simp [hm]

/-- Full characterization of a `#`-initiated directive line: the captured
buffer is the remainder of the line truncated to 511 bytes (then cut at the
first NUL for `strtok`), and "line too long" is raised exactly when the input
ends before a newline. -/
theorem parse_token_directive_eq (bs : List Nat) (st : PState) :
    parse_token (35 :: bs) st =
      if 10 ∈ bs then
        .ok (some ([], (bs.dropWhile fun c => c != 10).drop 1,
          applyPragma (splitWords
            (((bs.takeWhile fun c => c != 10).take 511).takeWhile fun x => x != 0)) st))
      else .error .lineTooLong := by
  have hstep : parse_token (35 :: bs) st =
      (match (scanUntil 10 bs 0).2 with
       | none => .error .lineTooLong
       | some r2 => .ok (some ([], r2,
           applyPragma (splitWords ((scanUntil 10 bs 0).1.takeWhile fun x => x != 0)) st))) := rfl
  rw [hstep, scanUntil_eq 10 bs 0 (by omega)]
  by_cases hm : (10 : Nat) ∈ bs
  · simp [hm]
  · simp [hm]

/-- Claim C2 (amended): for a directive line the remainder of the line is
captured truncated to 511 bytes, and the fatal error "line too long" is
raised if and only if the input ends before a newline — the 512-byte buffer
limit itself does not trigger the error; over-long lines ending in a newline
are processed silently. -/
theorem c2_directive_capture (bs : List Nat) (st : PState) :
    ((10 : Nat) ∉ bs → parse_token (35 :: bs) st = .error .lineTooLong)
  ∧ ((10 : Nat) ∈ bs →
      parse_token (35 :: bs) st =
        .ok (some ([], (bs.dropWhile fun c => c != 10).drop 1,
          applyPragma (splitWords
            (((bs.takeWhile fun c => c != 10).take 511).takeWhile fun x => x != 0)) st))) := by
  constructor
  · intro hnot
    rw [parse_token_directive_eq, if_neg hnot]
  · intro hmem
    rw [parse_token_directive_eq, if_pos hmem]

/-- Claim C2 counterexample: a `#` line of 600 bytes terminated by a newline
does not raise "line too long" (the claim asserts a fatal error for any line
not ending in a newline within the 512-byte buffer limit); the encoder
silently truncates and continues. -/
theorem c2_counterexample :
    parse_token (35 :: (List.replicate 600 97 ++ [10])) (PState.mk none none) =
      .ok (some ([], [], PState.mk none none)) ∧
    parse_token (35 :: (List.replicate 600 97 ++ [10])) (PState.mk none none) ≠
      .error .lineTooLong := by
  have h1 : parse_token (35 :: (List.replicate 600 97 ++ [10])) (PState.mk none none) =
      .ok (some ([], [], PState.mk none none)) := rfl
  exact ⟨h1, by rw [h1]; simp⟩

/-- Claim C2 witness. -/
theorem c2_witness :
    ((10 : Nat) ∉ str ("abc")) ∧
    parse_token (35 :: str ("abc")) (PState.mk none none) = .error .lineTooLong ∧
    ((10 : Nat) ∈ (str ("abc") ++ [10])) ∧
    parse_token (35 :: (str ("abc") ++ [10])) (PState.mk none none) =
      .ok (some ([], [], PState.mk none none)) := by
  have h1 := c2_directive_capture (str ("abc")) (PState.mk none none)
  have h2 := c2_directive_capture (str ("abc") ++ [10]) (PState.mk none none)
  exact ⟨by decide, h1.1 (by decide), by decide, h2.2 (by decide)⟩

/-- Claim C3 (amended): over-long string literals and names are silently
truncated to 511 bytes — the 512-byte buffer keeps one slot for the NUL
terminator — and the emitted 32-bit length prefix equals the truncated
payload length. -/
theorem c3_truncation (bs input : List Nat) (st : PState) :
    (34 ∈ bs →
      parse_token (34 :: bs) st =
        .ok (some ([wordBytes TOKEN_STRING,
          dwordBytes ((bs.takeWhile fun c => c != 34).take 511).length,
          (bs.takeWhile fun c => c != 34).take 511],
          (bs.dropWhile fun c => c != 34).drop 1, st)))
  ∧ (lookupKeyword ((input.takeWhile nameChar).take 511) = none →
      parse_name input =
        ([wordBytes TOKEN_NAME, dwordBytes ((input.takeWhile nameChar).take 511).length,
          (input.takeWhile nameChar).take 511], input.dropWhile nameChar)) := by
  constructor
  · intro hmem
    rw [parse_token_string_eq, if_pos hmem]
  · intro hkw
    have hstep : parse_name input =
        (match parse_keyword (nameScan input 0).1 with
         | some w => ([w], (nameScan input 0).2)
         | none => ([wordBytes TOKEN_NAME, dwordBytes (nameScan input 0).1.length,
             (nameScan input 0).1], (nameScan input 0).2)) := rfl
    rw [hstep, nameScan_eq input 0 (by omega)]
    simp [parse_keyword, hkw]

/-- Claim C3 counterexample: a 512-byte string literal is truncated to 511
bytes, not to the 512-byte limit the claim states. -/
theorem c3_counterexample :
    parse_token (34 :: (List.replicate 512 97 ++ [34])) (PState.mk none none) =
      .ok (some ([[2, 0], [255, 1, 0, 0], List.replicate 511 97], [],
        PState.mk none none)) ∧
    (List.replicate 511 97 : List Nat) ≠ List.replicate 512 97 := by
  constructor
  · rfl
  · intro h
    have h2 := congrArg List.length h
    simp at h2

/-- Claim C3 witness. -/
theorem c3_witness :
    ((34 : Nat) ∈ ([97, 34] : List Nat)) ∧
    lookupKeyword (((str ("xyz")).takeWhile nameChar).take 511) = none ∧
    parse_token (34 :: [97, 34]) (PState.mk none none) =
      .ok (some ([[2, 0], [1, 0, 0, 0], [97]], [], PState.mk none none)) ∧
    parse_name (str ("xyz")) = ([[1, 0], [3, 0, 0, 0], [120, 121, 122]], []) := by
  have h := c3_truncation [97, 34] (str ("xyz")) (PState.mk none none)
  exact ⟨by decide, by decide, h.1 (by decide), h.2 (by decide)⟩

/-- Claim C9: inside a string literal a quote byte always terminates the
literal — there is no escape processing, a backslash is stored verbatim, and
the stored payload can never contain a quote byte. -/
theorem c9_no_escape (bs : List Nat) (st : PState) (h : 34 ∈ bs) :
    parse_token (34 :: bs) st =
      .ok (some ([wordBytes TOKEN_STRING,
        dwordBytes ((bs.takeWhile fun c => c != 34).take 511).length,
        (bs.takeWhile fun c => c != 34).take 511],
        (bs.dropWhile fun c => c != 34).drop 1, st)) ∧
    ∀ x ∈ (bs.takeWhile fun c => c != 34).take 511, x ≠ 34 := by
  constructor
  · rw [parse_token_string_eq, if_pos h]
  · intro x hx
    have hx2 := List.mem_takeWhile_imp (List.mem_of_mem_take hx)
    simpa using hx2

/-- Claim C9 witness: in `"\"b`, the quote right after the backslash closes
the string; the payload is the verbatim backslash. -/
theorem c9_witness :
    ((34 : Nat) ∈ ([92, 34, 98] : List Nat)) ∧
    parse_token (34 :: [92, 34, 98]) (PState.mk none none) =
      .ok (some ([[2, 0], [1, 0, 0, 0], [92]], [98], PState.mk none none)) ∧
    ∀ x ∈ (([92, 34, 98] : List Nat).takeWhile fun c => c != 34).take 511, x ≠ 34 := by
  have h := c9_no_escape [92, 34, 98] (PState.mk none none) (by decide)
  exact ⟨by decide, h.1, h.2⟩

/-! ## Keyword dispatch -/

/-- The case-insensitive images of the fourteen reserved words are pairwise
distinct, so the `bsearch`-found entry is the unique matching one. -/
theorem reserved_lowered_nodup :
    (reserved_words.map fun e => e.1.map tolower).Nodup := by decide

theorem find_caseeq (w : List Nat) :
    ∀ (l : List (List Nat × Nat)), (l.map fun e => e.1.map tolower).Nodup →
    ∀ kw ∈ l, strcaseeq kw.1 w = true →
    l.find? (fun e => strcaseeq e.1 w) = some kw := by
  intro l
  induction l with
  | nil =>
    intro _ kw hm
    cases hm
  | cons e rest ih =>
    intro hnd kw hm hcase
    rcases List.mem_cons.mp hm with rfl | hm2
    · simp [List.find?, hcase]
    · have hnd2 : (e.1.map tolower) ∉ rest.map (fun e => e.1.map tolower) ∧
          (rest.map fun e => e.1.map tolower).Nodup := by
        simpa [List.nodup_cons] using hnd
      have hne : strcaseeq e.1 w = false := by
        rw [Bool.eq_false_iff]
        intro hb
        have he : e.1.map tolower = w.map tolower := by simpa [strcaseeq] using hb
        have hk : kw.1.map tolower = w.map tolower := by simpa [strcaseeq] using hcase
        exact hnd2.1 (by rw [he, ← hk]; exact List.mem_map_of_mem _ hm2)
      rw [show List.find? (fun e => strcaseeq e.1 w) (e :: rest) =
          List.find? (fun e => strcaseeq e.1 w) rest by simp [List.find?, hne]]
      exact ih hnd2.2 kw hm2 hcase

/-- Claim C5: an identifier consumed by the name rule that equals one of the
fourteen reserved words under case-insensitive comparison (exact equality —
`strcaseeq` forces equal lengths, so never a prefix match) emits only the
keyword token code alone; any other identifier emits a Name token with its
32-bit length and exact bytes. -/
theorem c5_keyword_dispatch (input : List Nat)
    (hlen : (input.takeWhile nameChar).length < 512) :
    (∀ kw ∈ reserved_words, strcaseeq kw.1 (input.takeWhile nameChar) = true →
        parse_name input = ([wordBytes kw.2], input.dropWhile nameChar))
  ∧ ((∀ kw ∈ reserved_words, strcaseeq kw.1 (input.takeWhile nameChar) = false) →
        parse_name input = ([wordBytes TOKEN_NAME,
          dwordBytes (input.takeWhile nameChar).length, input.takeWhile nameChar],
          input.dropWhile nameChar)) := by
  have htake : (input.takeWhile nameChar).take 511 = input.takeWhile nameChar :=
    List.take_of_length_le (by omega)
  have hstep : parse_name input =
      (match parse_keyword (nameScan input 0).1 with
       | some wr => ([wr], (nameScan input 0).2)
       | none => ([wordBytes TOKEN_NAME, dwordBytes (nameScan input 0).1.length,
           (nameScan input 0).1], (nameScan input 0).2)) := rfl
  rw [hstep, nameScan_eq input 0 (by omega)]
  constructor
  · intro kw hm hcase
    have hlk : lookupKeyword (input.takeWhile nameChar) = some kw.2 := by
      unfold lookupKeyword
      rw [find_caseeq (input.takeWhile nameChar) reserved_words
        reserved_lowered_nodup kw hm hcase]
      rfl
    simp [parse_keyword, Nat.sub_zero, htake, hlk]
  · intro hall
    have hlk : lookupKeyword (input.takeWhile nameChar) = none := by
      unfold lookupKeyword
      rw [List.find?_eq_none.mpr fun x hx => by simp [hall x hx]]
      rfl
    simp [parse_keyword, Nat.sub_zero, htake, hlk]

/-- Claim C5 witness: `Template` hits the TEMPLATE keyword case-insensitively;
`MyMesh-1` is an ordinary name with exact bytes and length prefix. -/
theorem c5_witness :
    ((str ("Template") ++ [32]).takeWhile nameChar).length < 512 ∧
    ((str ("MyMesh-1")).takeWhile nameChar).length < 512 ∧
    parse_name (str ("Template") ++ [32]) = ([[31, 0]], [32]) ∧
    parse_name (str ("MyMesh-1")) = ([[1, 0], [8, 0, 0, 0], str ("MyMesh-1")], []) := by
  have h1 := c5_keyword_dispatch (str ("Template") ++ [32]) (by decide)
  have h2 := c5_keyword_dispatch (str ("MyMesh-1")) (by decide)
  exact ⟨by decide, by decide,
    h1.1 (str ("TEMPLATE"), TOKEN_TEMPLATE) (by decide) (by decide),
    h2.2 (by decide)⟩

/-! ## Numeric literals -/

/-- Claim C6: `-42` encodes as an Integer token whose 4-byte payload is the
signed 32-bit representation of -42; `3.5` as a Float token with the IEEE-754 single bits of
3.5 (`0x40600000`, little-endian); and in `3.5.1` the second dot terminates
the number, leaving a Dot token and the Integer token 1. -/
theorem c6_number_tokens :
    lexAll (str ("-42")) = .ok ([3, 0] ++ [214, 255, 255, 255]) ∧
    lexAll (str ("3.5")) = .ok ([42, 0] ++ [0, 0, 96, 64]) ∧
    lexAll (str ("3.5.1")) =
      .ok ([42, 0] ++ [0, 0, 96, 64] ++ [18, 0] ++ ([3, 0] ++ [1, 0, 0, 0])) :=
  ⟨rfl, rfl, rfl⟩

/-! ## Output buffer growth -/

/-- Claim C4 (code bug): on a real input — a valid header followed by a
50-byte string literal — the `write_bytes` call sequence is 16, 2, 4, 50
bytes; at the last call the capacity grows to `max(2*32, 50) = 64` while 72
bytes are stored, so the `memcpy` writes 8 bytes past the allocation: the
claimed invariant `stored length + n ≤ capacity` fails. -/
theorem c4_buffer_overflow :
    (encodeFile (str ("xof 0302txt 0032") ++ 34 :: (List.replicate 50 97 ++ [34]))
        (PState.mk none none)).map
      (fun r => (r.1.data.length, r.1.cap, r.1.oob)) = .ok (72, 64, true) ∧ 64 < 72 :=
  ⟨rfl, by omega⟩

/-! ## Pragma precedence -/

theorem applyPragma_varName (ws : List (List Nat)) (st : PState)
    (h : st.varName.isSome = true) : (applyPragma ws st).varName = st.varName := by
  unfold applyPragma
  split
  · split_ifs
    · split
      · rename_i heq
        rw [heq] at h
        simp at h
      · rfl
    · split
      · rfl
      · rfl
    · rfl
    · rfl
  · rfl

theorem applyPragma_sizeName (ws : List (List Nat)) (st : PState)
    (h : st.sizeName.isSome = true) : (applyPragma ws st).sizeName = st.sizeName := by
  unfold applyPragma
  split
  · split_ifs
    · split
      · rfl
      · rfl
    · split
      · rename_i heq
        rw [heq] at h
        simp at h
      · rfl
    · rfl
    · rfl
  · rfl

theorem commentTok_state (r : List Nat) (st : PState) (ws : List (List Nat))
    (rest : List Nat) (st2 : PState)
    (h : commentTok r st = .ok (some (ws, rest, st2))) : st2 = st := by
  unfold commentTok at h
  split at h
  · split at h
    · simp at h
    · simp only [Except.ok.injEq, Option.some.injEq, Prod.mk.injEq] at h
      exact h.2.2.symm
  · simp at h

theorem directiveTok_state (r : List Nat) (st : PState) (ws : List (List Nat))
    (rest : List Nat) (st2 : PState)
    (h : directiveTok r st = .ok (some (ws, rest, st2))) :
    ∃ ds, st2 = applyPragma ds st := by
  unfold directiveTok at h
  split at h
  · simp at h
  · simp only [Except.ok.injEq, Option.some.injEq, Prod.mk.injEq] at h
    exact ⟨_, h.2.2.symm⟩

theorem stringTok_state (r : List Nat) (st : PState) (ws : List (List Nat))
    (rest : List Nat) (st2 : PState)
    (h : stringTok r st = .ok (some (ws, rest, st2))) : st2 = st := by
  unfold stringTok at h
  split at h
  · simp at h
  · simp only [Except.ok.injEq, Option.some.injEq, Prod.mk.injEq] at h
    exact h.2.2.symm

theorem mapTok_state (e : Except Fatal (List (List Nat) × List Nat)) (st : PState)
    (ws : List (List Nat)) (rest : List Nat) (st2 : PState)
    (h : e.map (fun p => some (p.1, p.2, st)) = .ok (some (ws, rest, st2))) :
    st2 = st := by
  cases e with
  | error e => simp [Except.map] at h
  | ok p =>
    simp only [Except.map, Except.ok.injEq, Option.some.injEq, Prod.mk.injEq] at h
    exact h.2.2.symm

/-- Every successful `parse_token` step leaves the configured names unchanged
or passes them through the pragma rule (which only fills empty slots). -/
theorem parse_token_state (input : List Nat) (st : PState) (ws : List (List Nat))
    (rest : List Nat) (st2 : PState)
    (h : parse_token input st = .ok (some (ws, rest, st2))) :
    st2 = st ∨ ∃ ds, st2 = applyPragma ds st := by
  cases input with
  | nil => simp [parse_token] at h
  | cons c r =>
    rw [parse_token] at h
    by_cases h1 : c = 10 ∨ c = 13 ∨ c = 32 ∨ c = 9
    · rw [if_pos h1] at h
      simp only [Except.ok.injEq, Option.some.injEq, Prod.mk.injEq] at h
      exact Or.inl h.2.2.symm
    rw [if_neg h1] at h
    by_cases h2 : c = 123
    · rw [if_pos h2] at h
      simp only [Except.ok.injEq, Option.some.injEq, Prod.mk.injEq] at h
      exact Or.inl h.2.2.symm
    rw [if_neg h2] at h
    by_cases h3 : c = 125
    · rw [if_pos h3] at h
      simp only [Except.ok.injEq, Option.some.injEq, Prod.mk.injEq] at h
      exact Or.inl h.2.2.symm
    rw [if_neg h3] at h
    by_cases h4 : c = 91
    · rw [if_pos h4] at h
      simp only [Except.ok.injEq, Option.some.injEq, Prod.mk.injEq] at h
      exact Or.inl h.2.2.symm
    rw [if_neg h4] at h
    by_cases h5 : c = 93
    · rw [if_pos h5] at h
      simp only [Except.ok.injEq, Option.some.injEq, Prod.mk.injEq] at h
      exact Or.inl h.2.2.symm
    rw [if_neg h5] at h
    by_cases h6 : c = 40
    · rw [if_pos h6] at h
      simp only [Except.ok.injEq, Option.some.injEq, Prod.mk.injEq] at h
      exact Or.inl h.2.2.symm
    rw [if_neg h6] at h
    by_cases h7 : c = 41
    · rw [if_pos h7] at h
      simp only [Except.ok.injEq, Option.some.injEq, Prod.mk.injEq] at h
      exact Or.inl h.2.2.symm
    rw [if_neg h7] at h
    by_cases h8 : c = 44
    · rw [if_pos h8] at h
      simp only [Except.ok.injEq, Option.some.injEq, Prod.mk.injEq] at h
      exact Or.inl h.2.2.symm
    rw [if_neg h8] at h
    by_cases h9 : c = 59
    · rw [if_pos h9] at h
      simp only [Except.ok.injEq, Option.some.injEq, Prod.mk.injEq] at h
      exact Or.inl h.2.2.symm
    rw [if_neg h9] at h
    by_cases h10 : c = 46
    · rw [if_pos h10] at h
      simp only [Except.ok.injEq, Option.some.injEq, Prod.mk.injEq] at h
      exact Or.inl h.2.2.symm
    rw [if_neg h10] at h
    by_cases h11 : c = 47
    · rw [if_pos h11] at h
      exact Or.inl (commentTok_state _ _ _ _ _ h)
    rw [if_neg h11] at h
    by_cases h12 : c = 35
    · rw [if_pos h12] at h
      exact Or.inr (directiveTok_state _ _ _ _ _ h)
    rw [if_neg h12] at h
    by_cases h13 : c = 60
    · rw [if_pos h13] at h
      exact Or.inl (mapTok_state _ _ _ _ _ h)
    rw [if_neg h13] at h
    by_cases h14 : c = 34
    · rw [if_pos h14] at h
      exact Or.inl (stringTok_state _ _ _ _ _ h)
    rw [if_neg h14] at h
    by_cases h15 : (isdigit c || decide (c = 45)) = true
    · rw [if_pos h15] at h
      exact Or.inl (mapTok_state _ _ _ _ _ h)
    rw [if_neg h15] at h
    by_cases h16 : (isalpha c || decide (c = 95)) = true
    · rw [if_pos h16] at h
      simp only [Except.ok.injEq, Option.some.injEq, Prod.mk.injEq] at h
      exact Or.inl h.2.2.symm
    rw [if_neg h16] at h
    simp at h

/-- Claim C10: if a variable name (or size-macro name) was supplied by flag
before encoding, the encoder loop never changes it — every
`#pragma xftmpl name`/`size` directive is ignored because a directive only
fills a slot that is still empty. -/
theorem c10_flag_precedence (fuel : Nat) : ∀ (input : List Nat) (st : PState)
    (b : OutBuf) (r : OutBuf × PState), runTokens fuel input st b = .ok r →
    (st.varName.isSome = true → r.2.varName = st.varName) ∧
    (st.sizeName.isSome = true → r.2.sizeName = st.sizeName) := by
  induction fuel with
  | zero =>
    intro input st b r h
    simp only [runTokens, Except.ok.injEq] at h
    rw [← h]
    exact ⟨fun _ => rfl, fun _ => rfl⟩
  | succ n ih =>
    intro input st b r h
    unfold runTokens at h
    cases hp : parse_token input st with
    | error e =>
      rw [hp] at h
      simp at h
    | ok o =>
      cases o with
      | none =>
        rw [hp] at h
        simp only [Except.ok.injEq] at h
        rw [← h]
        exact ⟨fun _ => rfl, fun _ => rfl⟩
      | some t =>
        obtain ⟨ws, rest, st2⟩ := t
        rw [hp] at h
        have hstep := parse_token_state input st ws rest st2 hp
        have hrec := ih rest st2 (applyWrites b ws) r h
        constructor
        · intro hv
          have hv2 : st2.varName = st.varName := by
            rcases hstep with rfl | ⟨ds, rfl⟩
            · rfl
            · exact applyPragma_varName ds st hv
          rw [hrec.1 (by rw [hv2]; exact hv), hv2]
        · intro hv
          have hv2 : st2.sizeName = st.sizeName := by
            rcases hstep with rfl | ⟨ds, rfl⟩
            · rfl
            · exact applyPragma_sizeName ds st hv
          rw [hrec.2 (by rw [hv2]; exact hv), hv2]

/-- Claim C10 witness: with the variable name preset to `Foo`, a
`#pragma xftmpl name Bar` directive leaves it untouched. -/
theorem c10_witness :
    ((PState.mk (some (str ("Foo"))) none).varName.isSome = true) ∧
    (emptyBuf, PState.mk (some (str ("Foo"))) none).2.varName =
      (PState.mk (some (str ("Foo"))) none).varName := by
  have hrun : runTokens 3 (str ("#pragma xftmpl name Bar") ++ [10])
      (PState.mk (some (str ("Foo"))) none) emptyBuf =
      .ok (emptyBuf, PState.mk (some (str ("Foo"))) none) := rfl
  have h := c10_flag_precedence 3 (str ("#pragma xftmpl name Bar") ++ [10])
    (PState.mk (some (str ("Foo"))) none) emptyBuf
    (emptyBuf, PState.mk (some (str ("Foo"))) none) hrun
  exact ⟨rfl, h.1 rfl⟩

/-! ## Header classification and the canonical output header -/

theorem applyWrites_data (b : OutBuf) (ws : List (List Nat)) :
    ∃ t, (applyWrites b ws).data = b.data ++ t := by
  induction ws generalizing b with
  | nil => exact ⟨[], by simp [applyWrites]⟩
  | cons w rest ih =>
    obtain ⟨t, ht⟩ := ih (write_bytes b w)
    refine ⟨w ++ t, ?_⟩
    rw [show applyWrites b (w :: rest) = applyWrites (write_bytes b w) rest from rfl, ht]
    show (b.data ++ w) ++ t = b.data ++ (w ++ t)
    rw [List.append_assoc]

/-- The encoder loop only appends to the output buffer. -/
theorem runTokens_data (fuel : Nat) : ∀ (input : List Nat) (st : PState)
    (b : OutBuf) (r : OutBuf × PState), runTokens fuel input st b = .ok r →
    ∃ t, r.1.data = b.data ++ t := by
  induction fuel with
  | zero =>
    intro input st b r h
    simp only [runTokens, Except.ok.injEq] at h
    exact ⟨[], by rw [← h]; simp⟩
  | succ n ih =>
    intro input st b r h
    unfold runTokens at h
    cases hp : parse_token input st with
    | error e =>
      rw [hp] at h
      simp at h
    | ok o =>
      cases o with
      | none =>
        rw [hp] at h
        simp only [Except.ok.injEq] at h
        exact ⟨[], by rw [← h]; simp⟩
      | some t0 =>
        obtain ⟨ws, rest, st2⟩ := t0
        rw [hp] at h
        obtain ⟨t1, ht1⟩ := applyWrites_data b ws
        obtain ⟨t2, ht2⟩ := ih rest st2 (applyWrites b ws) r h
        exact ⟨t1 ++ t2, by rw [ht2, ht1, List.append_assoc]⟩

/-- Claim C7: whenever all four header fields are acceptable (either version,
either float width), classification succeeds — no header error is possible —
and the first 16 bytes of any produced output are the fixed canonical header
`xof 0302bin 0064`, independent of which accepted variant was supplied. -/
theorem c7_header (input : List Nat) (st : PState)
    (hmag : input.take 4 = str ("xof "))
    (hver : (input.drop 4).take 4 = str ("0302") ∨ (input.drop 4).take 4 = str ("0303"))
    (htxt : (input.drop 8).take 4 = str ("txt "))
    (hflt : (input.drop 12).take 4 = str ("0032") ∨ (input.drop 12).take 4 = str ("0064")) :
    (∀ e, encodeFile input st ≠ .error (.header e)) ∧
    (∀ r, encodeFile input st = .ok r → r.1.data.take 16 = canonicalHeader) := by
  have hlen : 16 ≤ input.length := by
    have h4 : ((input.drop 12).take 4).length = 4 := by
      rcases hflt with h | h <;> rw [h] <;> rfl
    rw [List.length_take, List.length_drop] at h4
    omega
  have hbase : (write_bytes emptyBuf canonicalHeader).data = canonicalHeader := rfl
  unfold encodeFile
  rw [if_neg (by omega), if_neg (by simp [hmag]),
    if_neg (by rcases hver with h | h <;> simp [h]), if_neg (by simp [htxt]),
    if_neg (by rcases hflt with h | h <;> simp [h])]
  cases hrun : runTokens (input.length + 1) (input.drop 16) st
      (write_bytes emptyBuf canonicalHeader) with
  | error e2 =>
    constructor
    · intro e
      simp
    · intro r hok
      simp at hok
  | ok p =>
    constructor
    · intro e
      simp
    · intro r hok
      simp only [Except.ok.injEq] at hok
      obtain ⟨t, ht⟩ := runTokens_data (input.length + 1) (input.drop 16) st
        (write_bytes emptyBuf canonicalHeader) p hrun
      rw [← hok, ht, hbase]
      exact List.take_left' rfl

/-- Claim C7 witness: the non-canonical variant `0303` + `0032` classifies
successfully (and by `c7_header` any output starts with the canonical
header). -/
theorem c7_witness :
    ((str ("xof 0303txt 0032")).take 4 = str ("xof ")) ∧
    (((str ("xof 0303txt 0032")).drop 4).take 4 = str ("0303")) ∧
    (((str ("xof 0303txt 0032")).drop 8).take 4 = str ("txt ")) ∧
    (((str ("xof 0303txt 0032")).drop 12).take 4 = str ("0032")) ∧
    (∀ e, encodeFile (str ("xof 0303txt 0032")) (PState.mk none none) ≠
      .error (.header e)) := by
  have h := c7_header (str ("xof 0303txt 0032")) (PState.mk none none) (by decide)
    (Or.inr (by decide)) (by decide) (Or.inl (by decide))
  exact ⟨by decide, by decide, by decide, by decide, h.1⟩

/-! ## Header-mode sink versus binary-mode sink -/

def hexdigitChar (n : Nat) : Nat := if n < 10 then 48 + n else 87 + n

theorem printfHex02_eq : ∀ b, b < 256 →
    printfHex02 b = [hexdigitChar (b / 16), hexdigitChar (b % 16)] := by decide

theorem hexVal_hexdigitChar : ∀ n, n < 16 → hexVal (hexdigitChar n) = some n := by decide

theorem decodeHexBytes_skip (c : Nat) (l : List Nat) (hc : c ≠ 48) :
    decodeHexBytes (c :: l) = decodeHexBytes l := by
  rw [decodeHexBytes.eq_def]
  split
  · rename_i heq
    exact absurd heq (by simp)
  · rename_i x2 rest2 heq
    injection heq with hc48 hrest
    exact absurd hc48 hc
  · rename_i x2 hd rest2 hno heq
    injection heq with hhd hrest
    rw [← hrest]

theorem decodeHexBytes_hexrun (h1 h2 : Nat) (l : List Nat)
    (hh1 : hex h1 = true) (hh2 : hex h2 = true) :
    decodeHexBytes (48 :: 120 :: h1 :: h2 :: 44 :: l) =
      (((hexVal h1).getD 0) * 16 + (hexVal h2).getD 0) :: decodeHexBytes (44 :: l) := by
  have hp1 : ((hexVal h1).isSome = true) := hh1
  have hp2 : ((hexVal h2).isSome = true) := hh2
  have h44 : ((hexVal (44 : Nat)).isSome = false) := rfl
  rw [decodeHexBytes.eq_def]
  have htw : (h1 :: h2 :: 44 :: l).takeWhile (fun c => (hexVal c).isSome) = [h1, h2] := by
    rw [List.takeWhile_cons, if_pos hp1, List.takeWhile_cons, if_pos hp2,
      List.takeWhile_cons, if_neg (by rw [h44]; exact Bool.false_ne_true)]
  have hdw : (h1 :: h2 :: 44 :: l).dropWhile (fun c => (hexVal c).isSome) = 44 :: l := by
    rw [List.dropWhile_cons, if_pos hp1, List.dropWhile_cons, if_pos hp2,
      List.dropWhile_cons, if_neg (by rw [h44]; exact Bool.false_ne_true)]
  simp only [htw, hdw]
  rw [if_neg (by simp)]
  simp [hexListVal]

theorem decode_render (data : List Nat) : ∀ i, (∀ b ∈ data, b < 256) →
    decodeHexBytes (write_c_hex_bytes i data) = data := by
  induction data with
  | nil =>
    intro i h
    simp [write_c_hex_bytes, decodeHexBytes]
  | cons b rest ih =>
    intro i h
    have hb : b < 256 := h b (List.mem_cons_self b rest)
    have hrec := ih (i + 1) fun x hx => h x (List.mem_cons_of_mem b hx)
    have hv1 : hex (hexdigitChar (b / 16)) = true := by
      have hx := hexVal_hexdigitChar (b / 16) (by omega)
      simp [hex, hx]
    have hv2 : hex (hexdigitChar (b % 16)) = true := by
      have hx := hexVal_hexdigitChar (b % 16) (by omega)
      simp [hex, hx]
    have hval : ((hexVal (hexdigitChar (b / 16))).getD 0) * 16 +
        (hexVal (hexdigitChar (b % 16))).getD 0 = b := by
      rw [hexVal_hexdigitChar (b / 16) (by omega), hexVal_hexdigitChar (b % 16) (by omega)]
      simp [Option.getD]
      omega
    rw [write_c_hex_bytes, printfHex02_eq b hb]
    by_cases hi : i % 12 = 0
    · rw [if_pos hi]
      simp only [List.cons_append, List.nil_append]
      rw [decodeHexBytes_skip 10 _ (by omega), decodeHexBytes_skip 32 _ (by omega),
        decodeHexBytes_skip 32 _ (by omega), decodeHexBytes_hexrun _ _ _ hv1 hv2,
        decodeHexBytes_skip 44 _ (by omega), hrec, hval]
    · rw [if_neg hi]
      simp only [List.cons_append, List.nil_append]
      rw [decodeHexBytes_skip 32 _ (by omega), decodeHexBytes_hexrun _ _ _ hv1 hv2,
        decodeHexBytes_skip 44 _ (by omega), hrec, hval]

/-- Claim C8: decoding the hex values of the C-array rendering produced by
the header-mode sink writer recovers exactly the byte sequence the
binary-mode sink writer emits for the same accumulated output buffer. -/
theorem c8_hex_roundtrip (data : List Nat) (h : ∀ b ∈ data, b < 256) :
    decodeHexBytes (write_c_hex_bytes 0 data) = write_raw_bytes data :=
  decode_render data 0 h

/-- Claim C8 witness. -/
theorem c8_witness :
    (∀ b ∈ ([0, 171, 255] : List Nat), b < 256) ∧
    decodeHexBytes (write_c_hex_bytes 0 [0, 171, 255]) = write_raw_bytes [0, 171, 255] :=
  ⟨by decide, c8_hex_roundtrip [0, 171, 255] (by decide)⟩

/-! ## GUID literals -/

theorem hex_ranges (c : Nat) (h : hex c = true) :
    (48 ≤ c ∧ c ≤ 57) ∨ (65 ≤ c ∧ c ≤ 70) ∨ (97 ≤ c ∧ c ≤ 102) := by
  unfold hex hexVal at h
  split_ifs at h with h1 h2 h3
  · exact Or.inl h1
  · exact Or.inr (Or.inl h2)
  · exact Or.inr (Or.inr h3)
  · simp at h

theorem hex_facts (c : Nat) (h : hex c = true) :
    isspaceC c = false ∧ c ≠ 43 ∧ c ≠ 45 ∧ c ≠ 120 ∧ c ≠ 88 ∧ c ≠ 0 := by
  rcases hex_ranges c h with ⟨a, b⟩ | ⟨a, b⟩ | ⟨a, b⟩ <;>
    exact ⟨by simp only [isspaceC, decide_eq_false_iff_not]; omega,
      by omega, by omega, by omega, by omega, by omega⟩

theorem takeHexDigits_exact (w : Nat) : ∀ (ds rest : List Nat), w ≤ ds.length →
    (∀ c ∈ ds, hex c = true) →
    ∃ v, takeHexDigits w (ds ++ rest) = (w, v, ds.drop w ++ rest) := by
  induction w with
  | zero =>
    intro ds rest hlen hall
    exact ⟨0, by simp [takeHexDigits]⟩
  | succ n ih =>
    intro ds rest hlen hall
    cases ds with
    | nil => simp at hlen
    | cons c ds2 =>
      have hc : hex c = true := hall c (List.mem_cons_self c ds2)
      obtain ⟨v0, hv0⟩ : ∃ v0, hexVal c = some v0 := by
        cases hx : hexVal c
        · unfold hex at hc
          rw [hx] at hc
          simp at hc
        · exact ⟨_, rfl⟩
      obtain ⟨v, hv⟩ := ih ds2 rest (by simpa using hlen)
        fun x hx => hall x (List.mem_cons_of_mem c hx)
      refine ⟨v0 * 16 ^ n + v, ?_⟩
      rw [show (c :: ds2) ++ rest = c :: (ds2 ++ rest) from rfl]
      rw [takeHexDigits, hv0]
      simp [hv, List.drop_succ_cons]

/-- A `%NX` conversion on at least `w` hex digits (`2 ≤ w`) consumes exactly
`w` of them. -/
theorem scanfHex_digits (w : Nat) (hw : 2 ≤ w) (ds rest : List Nat)
    (hlen : w ≤ ds.length) (hall : ∀ c ∈ ds, hex c = true) :
    ∃ v : Int, scanfHex w (ds ++ rest) = some (v, ds.drop w ++ rest) := by
  obtain ⟨c1, ds1, rfl⟩ : ∃ c1 ds1, ds = c1 :: ds1 := by
    cases ds
    · simp at hlen
      omega
    · exact ⟨_, _, rfl⟩
  obtain ⟨c2, ds2, rfl⟩ : ∃ c2 ds2, ds1 = c2 :: ds2 := by
    cases ds1
    · simp at hlen
      omega
    · exact ⟨_, _, rfl⟩
  have hf1 := hex_facts c1 (hall c1 (by simp))
  have hf2 := hex_facts c2 (hall c2 (by simp))
  have hdw : ((c1 :: c2 :: ds2) ++ rest).dropWhile isspaceC = (c1 :: c2 :: ds2) ++ rest := by
    rw [show (c1 :: c2 :: ds2) ++ rest = c1 :: (c2 :: ds2 ++ rest) from rfl,
      List.dropWhile_cons, if_neg (by rw [hf1.1]; exact Bool.false_ne_true)]
  obtain ⟨v, hv⟩ := takeHexDigits_exact w (c1 :: c2 :: ds2) rest hlen hall
  refine ⟨(v : Int), ?_⟩
  unfold scanfHex
  rw [hdw, if_neg (by simp [hf1.2.1]), if_neg (by simp [hf1.2.2.1])]
  unfold scanfHexAfterSign
  rw [if_neg (by simp [hf2.2.2.2.1, hf2.2.2.2.2.1]), if_neg (by rw [hv]; omega), hv]
  simp

theorem matchLit_some (c : Nat) (bs r : List Nat) (h : matchLit c bs = some r) :
    bs = c :: r := by
  cases bs with
  | nil => simp [matchLit] at h
  | cons d rest =>
    rw [matchLit] at h
    by_cases hd : d = c
    · rw [if_pos hd] at h
      simp only [Option.some.injEq] at h
      rw [hd, h]
    · rw [if_neg hd] at h
      simp at h

theorem hexRun_decomp : ∀ (n : Nat) (bs r : List Nat), hexRun n bs = some r →
    ∃ ds, bs = ds ++ r ∧ ds.length = n ∧ ∀ c ∈ ds, hex c = true := by
  intro n
  induction n with
  | zero =>
    intro bs r h
    simp only [hexRun, Option.some.injEq] at h
    exact ⟨[], by simp [h], rfl, by simp⟩
  | succ m ih =>
    intro bs r h
    cases bs with
    | nil => simp [hexRun] at h
    | cons c rest =>
      rw [hexRun] at h
      by_cases hc : hex c = true
      · rw [if_pos hc] at h
        obtain ⟨ds, hds, hlen, hall⟩ := ih rest r h
        refine ⟨c :: ds, by simp [hds], by simp [hlen], ?_⟩
        intro x hx
        rcases List.mem_cons.mp hx with rfl | hx2
        · exact hc
        · exact hall x hx2
      · rw [if_neg hc] at h
        simp at h

/-- A buffer matching the fixed GUID text pattern decomposes into the five
hex-digit groups with dashes and the closing angle at their fixed offsets. -/
theorem guidPattern_decomp (bs : List Nat) (h : guidFixedPattern bs) :
    ∃ d8 d4a d4b d4c d12 : List Nat,
      bs = d8 ++ 45 :: (d4a ++ 45 :: (d4b ++ 45 :: (d4c ++ 45 :: (d12 ++ [62])))) ∧
      d8.length = 8 ∧ d4a.length = 4 ∧ d4b.length = 4 ∧ d4c.length = 4 ∧
      d12.length = 12 ∧
      (∀ c ∈ d8, hex c = true) ∧ (∀ c ∈ d4a, hex c = true) ∧
      (∀ c ∈ d4b, hex c = true) ∧ (∀ c ∈ d4c, hex c = true) ∧
      (∀ c ∈ d12, hex c = true) := by
  unfold guidFixedPattern at h
  cases e1 : hexRun 8 bs with
  | none => rw [e1] at h; simp at h
  | some r1 =>
  rw [e1] at h
  simp only [Option.some_bind] at h
  cases e2 : matchLit 45 r1 with
  | none => rw [e2] at h; simp at h
  | some r2 =>
  rw [e2] at h
  simp only [Option.some_bind] at h
  cases e3 : hexRun 4 r2 with
  | none => rw [e3] at h; simp at h
  | some r3 =>
  rw [e3] at h
  simp only [Option.some_bind] at h
  cases e4 : matchLit 45 r3 with
  | none => rw [e4] at h; simp at h
  | some r4 =>
  rw [e4] at h
  simp only [Option.some_bind] at h
  cases e5 : hexRun 4 r4 with
  | none => rw [e5] at h; simp at h
  | some r5 =>
  rw [e5] at h
  simp only [Option.some_bind] at h
  cases e6 : matchLit 45 r5 with
  | none => rw [e6] at h; simp at h
  | some r6 =>
  rw [e6] at h
  simp only [Option.some_bind] at h
  cases e7 : hexRun 4 r6 with
  | none => rw [e7] at h; simp at h
  | some r7 =>
  rw [e7] at h
  simp only [Option.some_bind] at h
  cases e8 : matchLit 45 r7 with
  | none => rw [e8] at h; simp at h
  | some r8 =>
  rw [e8] at h
  simp only [Option.some_bind] at h
  cases e9 : hexRun 12 r8 with
  | none => rw [e9] at h; simp at h
  | some r9 =>
  rw [e9] at h
  simp only [Option.some_bind] at h
  cases e10 : matchLit 62 r9 with
  | none => rw [e10] at h; simp at h
  | some r10 =>
  rw [e10] at h
  simp only [Option.some.injEq] at h
  subst h
  obtain ⟨d8, hb8, l8, a8⟩ := hexRun_decomp 8 bs r1 e1
  obtain ⟨d4a, hb4a, l4a, a4a⟩ := hexRun_decomp 4 r2 r3 e3
  obtain ⟨d4b, hb4b, l4b, a4b⟩ := hexRun_decomp 4 r4 r5 e5
  obtain ⟨d4c, hb4c, l4c, a4c⟩ := hexRun_decomp 4 r6 r7 e7
  obtain ⟨d12, hb12, l12, a12⟩ := hexRun_decomp 12 r8 r9 e9
  have m2 := matchLit_some 45 r1 r2 e2
  have m4 := matchLit_some 45 r3 r4 e4
  have m6 := matchLit_some 45 r5 r6 e6
  have m8 := matchLit_some 45 r7 r8 e8
  have m10 := matchLit_some 62 r9 [] e10
  refine ⟨d8, d4a, d4b, d4c, d12, ?_, l8, l4a, l4b, l4c, l12, a8, a4a, a4b, a4c, a12⟩
  rw [hb8, m2, hb4a, m4, hb4b, m6, hb4c, m8, hb12, m10]

/-- The sscanf GUID format accepts every buffer matching the fixed pattern
and produces the 16-byte GUID record. -/
theorem scanGuid_pattern (bs : List Nat) (h : guidFixedPattern bs) :
    ∃ g, scanGuid (60 :: bs) = some g ∧ g.length = 16 := by
  obtain ⟨d8, d4a, d4b, d4c, d12, hbs, l8, l4a, l4b, l4c, l12, a8, a4a, a4b, a4c, a12⟩ :=
    guidPattern_decomp bs h
  subst hbs
  obtain ⟨v1, hv1⟩ := scanfHex_digits 8 (by omega) d8
    (45 :: (d4a ++ 45 :: (d4b ++ 45 :: (d4c ++ 45 :: (d12 ++ [62]))))) (by omega) a8
  have hd8 : d8.drop 8 = [] := List.drop_eq_nil_of_le (by omega)
  obtain ⟨v2, hv2⟩ := scanfHex_digits 4 (by omega) d4a
    (45 :: (d4b ++ 45 :: (d4c ++ 45 :: (d12 ++ [62])))) (by omega) a4a
  have hd4a : d4a.drop 4 = [] := List.drop_eq_nil_of_le (by omega)
  obtain ⟨v3, hv3⟩ := scanfHex_digits 4 (by omega) d4b
    (45 :: (d4c ++ 45 :: (d12 ++ [62]))) (by omega) a4b
  have hd4b : d4b.drop 4 = [] := List.drop_eq_nil_of_le (by omega)
  obtain ⟨v4, hv4⟩ := scanfHex_digits 2 (by omega) d4c
    (45 :: (d12 ++ [62])) (by omega) a4c
  obtain ⟨v5, hv5⟩ := scanfHex_digits 2 (by omega) (d4c.drop 2)
    (45 :: (d12 ++ [62])) (by simp [l4c]) fun c hc => a4c c (List.drop_subset _ _ hc)
  simp only [List.drop_drop] at hv5
  have hd4c : d4c.drop 4 = [] := List.drop_eq_nil_of_le (by omega)
  obtain ⟨v6, hv6⟩ := scanfHex_digits 2 (by omega) d12 [62] (by omega) a12
  obtain ⟨v7, hv7⟩ := scanfHex_digits 2 (by omega) (d12.drop 2) [62]
    (by simp [l12]) fun c hc => a12 c (List.drop_subset _ _ hc)
  simp only [List.drop_drop] at hv7
  obtain ⟨v8, hv8⟩ := scanfHex_digits 2 (by omega) (d12.drop 4) [62]
    (by simp [l12]) fun c hc => a12 c (List.drop_subset _ _ hc)
  simp only [List.drop_drop] at hv8
  obtain ⟨v9, hv9⟩ := scanfHex_digits 2 (by omega) (d12.drop 6) [62]
    (by simp [l12]) fun c hc => a12 c (List.drop_subset _ _ hc)
  simp only [List.drop_drop] at hv9
  obtain ⟨v10, hv10⟩ := scanfHex_digits 2 (by omega) (d12.drop 8) [62]
    (by simp [l12]) fun c hc => a12 c (List.drop_subset _ _ hc)
  simp only [List.drop_drop] at hv10
  obtain ⟨v11, hv11⟩ := scanfHex_digits 2 (by omega) (d12.drop 10) [62]
    (by simp [l12]) fun c hc => a12 c (List.drop_subset _ _ hc)
  simp only [List.drop_drop] at hv11
  have hd12 : d12.drop 12 = [] := List.drop_eq_nil_of_le (by omega)
  have hrun : runFmt guidFmt
      (60 :: (d8 ++ 45 :: (d4a ++ 45 :: (d4b ++ 45 :: (d4c ++ 45 :: (d12 ++ [62])))))) =
      ([v1, v2, v3, v4, v5, v6, v7, v8, v9, v10, v11], []) := by
    simp [guidFmt, runFmt, matchLit, hv1, hv2, hv3, hv4, hv5, hv6, hv7, hv8, hv9,
      hv10, hv11, hd8, hd4a, hd4b, hd4c, hd12]
  refine ⟨dwordBytes (toU32 v1) ++ wordBytes (toU32 v2 % 65536) ++
    wordBytes (toU32 v3 % 65536) ++
    [toU32 v4 % 256, toU32 v5 % 256, toU32 v6 % 256, toU32 v7 % 256,
     toU32 v8 % 256, toU32 v9 % 256, toU32 v10 % 256, toU32 v11 % 256], ?_, ?_⟩
  · unfold scanGuid
    rw [hrun]
  · simp [dwordBytes, wordBytes]

/-- Claim C1 (amended): after `<`, exactly 37 more bytes are read (fatal
"truncated GUID" when unavailable); every buffer matching the fixed pattern
`<XXXXXXXX-XXXX-XXXX-XXXX-XXXXXXXXXXXX>` is accepted, emitting the GUID
token word and the 16-byte record; and the fatal "invalid GUID" error is
raised exactly when `sscanf` assigns fewer than the expected 11 conversions
(`scanGuid` returning `none`).  Because every conversion precedes the
closing `>` of the format, that trailing literal is never enforced, and the
optionally signed, variable-width `%X` conversions accept further buffers
outside the fixed pattern — so not every non-matching buffer errors. -/
theorem c1_guid_scanf (input : List Nat) :
    (input.length < 37 → parse_guid input = .error .truncatedGuid) ∧
    (guidFixedPattern (input.take 37) →
      ∃ g, g.length = 16 ∧
        parse_guid input = .ok ([wordBytes TOKEN_GUID, g], input.drop 37)) ∧
    (37 ≤ input.length →
      scanGuid (60 :: (input.take 37).takeWhile fun c => c != 0) = none →
      parse_guid input = .error .invalidGuid) := by
  refine ⟨?_, ?_, ?_⟩
  · intro h
    unfold parse_guid
    rw [if_pos h]
  · intro hp
    obtain ⟨g, hg, hlen16⟩ := scanGuid_pattern (input.take 37) hp
    have hlen37 : (input.take 37).length = 37 := by
      obtain ⟨d8, d4a, d4b, d4c, d12, hbs, l8, l4a, l4b, l4c, l12, _⟩ :=
        guidPattern_decomp _ hp
      rw [hbs]
      simp [l8, l4a, l4b, l4c, l12]
    have hinlen : 37 ≤ input.length := by
      rw [List.length_take] at hlen37
      omega
    have hnonul : (input.take 37).takeWhile (fun c => c != 0) = input.take 37 := by
      apply takeWhile_eq_self_of_all
      intro x hx
      obtain ⟨d8, d4a, d4b, d4c, d12, hbs, l8, l4a, l4b, l4c, l12, a8, a4a, a4b, a4c, a12⟩ :=
        guidPattern_decomp _ hp
      rw [hbs] at hx
      have hx0 : x ≠ 0 := by
        simp only [List.mem_append, List.mem_cons] at hx
        rcases hx with h1 | h1 | h1
        · exact (hex_facts x (a8 x h1)).2.2.2.2.2
        · omega
        rcases h1 with h1 | h1 | h1
        · exact (hex_facts x (a4a x h1)).2.2.2.2.2
        · omega
        rcases h1 with h1 | h1 | h1
        · exact (hex_facts x (a4b x h1)).2.2.2.2.2
        · omega
        rcases h1 with h1 | h1 | h1
        · exact (hex_facts x (a4c x h1)).2.2.2.2.2
        · omega
        rcases h1 with h1 | h1 | h1
        · exact (hex_facts x (a12 x h1)).2.2.2.2.2
        · omega
        · cases h1
      simp [hx0]
    unfold parse_guid
    rw [if_neg (by omega), hnonul, hg]
    exact ⟨g, hlen16, rfl⟩
  · intro hlen hnone
    unfold parse_guid
    rw [if_neg (by omega), hnone]

/-- Claim C1 counterexample: two 37-byte buffers outside the fixed pattern
that the program nevertheless encodes as GUID tokens.  In
`+0000000-0000-0000-0000-000000000000>` the first byte is a sign, not a hex
digit, yet the optionally signed `%08X` conversion reads `+0000000`.  In
`00000000-0000-0000-0000-000000000000A` the closing `>` is missing, yet all
11 conversions are assigned before the trailing literal is tried, so
`sscanf` still returns 11 and no error is raised. -/
theorem c1_guid_counterexample :
    (¬ guidFixedPattern (str ("+0000000-0000-0000-0000-000000000000>")) ∧
      parse_guid (str ("+0000000-0000-0000-0000-000000000000>")) =
        .ok ([[5, 0], List.replicate 16 0], [])) ∧
    (¬ guidFixedPattern (str ("00000000-0000-0000-0000-000000000000A")) ∧
      parse_guid (str ("00000000-0000-0000-0000-000000000000A")) =
        .ok ([[5, 0], List.replicate 16 0], [])) :=
  ⟨⟨by decide, rfl⟩, ⟨by decide, rfl⟩⟩

/-- Claim C1 witness. -/
theorem c1_guid_witness :
    (([] : List Nat).length < 37) ∧
    parse_guid ([] : List Nat) = .error .truncatedGuid ∧
    guidFixedPattern ((str ("00000000-0000-0000-0000-000000000000>")).take 37) ∧
    (∃ g, g.length = 16 ∧
      parse_guid (str ("00000000-0000-0000-0000-000000000000>")) =
        .ok ([wordBytes TOKEN_GUID, g],
          (str ("00000000-0000-0000-0000-000000000000>")).drop 37)) ∧
    (37 ≤ (List.replicate 37 (122 : Nat)).length) ∧
    scanGuid (60 :: ((List.replicate 37 (122 : Nat)).take 37).takeWhile fun c => c != 0) =
      none ∧
    parse_guid (List.replicate 37 (122 : Nat)) = .error .invalidGuid := by
  have h1 := (c1_guid_scanf []).1 (by decide)
  have h2 := (c1_guid_scanf (str ("00000000-0000-0000-0000-000000000000>"))).2.1 (by decide)
  have h3 := (c1_guid_scanf (List.replicate 37 122)).2.2 (by decide) (by decide)
  exact ⟨by decide, h1, by decide, h2, by decide, by decide, h3⟩

end MakeXftmpl
